import Mathlib

/-!
Verification development for `convert.py` of the Timeline2GPX repository.

The program is a linear batch transform (load, flatten, sort, filter/chunk,
serialize).  Every definition below is a shallow embedding of a concrete piece
of `src/convert.py`; Python strings are modelled as `List Char`, Python `int`
as `Int`/`Nat`, `datetime` objects as records of their parsed components, and
fallible operations as `Option`/`Except`.  Floating point values are carried
as their accepted source literals (no claim computes with them).
-/

namespace Timeline2GPX

/-- Model of a timezone-aware Python `datetime` as produced by
`datetime.strptime(_, "%Y-%m-%dT%H:%M:%S.%f%z")`: the parsed calendar and
clock components plus the UTC offset in minutes. -/
structure PyDateTime where
  year : Nat
  month : Nat
  day : Nat
  hour : Nat
  minute : Nat
  second : Nat
  usec : Nat
  offSeconds : Int
deriving DecidableEq

/-- Julian day number of a civil date (proleptic Gregorian); used as the
ordinal of `datetime.date` so that `d2 - d1` in days is ordinal subtraction
and date comparison is ordinal comparison. -/
def daysFromCivil (y m d : Nat) : Nat :=
  let a := (14 - m) / 12
  let y2 := y + 4800 - a
  let m2 := m + 12 * a - 3
  d + (153 * m2 + 2) / 5 + 365 * y2 + y2 / 4 - y2 / 100 + y2 / 400 - 32045

/-- Ordinal of `dt.date()`: Python's aware `datetime.date()` returns the
calendar date of the parsed (wall-clock) components. -/
def PyDateTime.dateOrd (t : PyDateTime) : Int :=
  (daysFromCivil t.year t.month t.day : Int)

/-- Comparison key of an aware `datetime`: the absolute instant in
microseconds (wall-clock value minus the UTC offset). -/
def PyDateTime.instant (t : PyDateTime) : Int :=
  ((daysFromCivil t.year t.month t.day : Int) * 86400 + (t.hour : Int) * 3600 +
      (t.minute : Int) * 60 + (t.second : Int)) * 1000000 + (t.usec : Int) -
    t.offSeconds * 1000000

/-- A Python float value, represented by its accepted source literal (no claim
inspects the numeric value, only parse success/failure). -/
structure PyFloat where
  lit : List Char
deriving DecidableEq

/-- One element of the `points` list built in `main`:
`{"time": datetime, "latitude": float, "longitude": float}`. -/
structure Point where
  time : PyDateTime
  latitude : PyFloat
  longitude : PyFloat
deriving DecidableEq

instance : Inhabited PyDateTime := ⟨⟨0, 0, 0, 0, 0, 0, 0, 0⟩⟩

instance : Inhabited PyFloat := ⟨⟨[]⟩⟩

instance : Inhabited Point := ⟨⟨default, default, default⟩⟩

/-- Default used with `List.getD`; the scan only indexes in bounds. -/
def dfltPoint : Point := default

/-- The ordering used by `sorted(points, key=lambda x: x['time'])`: aware
datetimes compare by absolute instant. -/
def timeLE (a b : Point) : Prop := a.time.instant ≤ b.time.instant

instance : DecidableRel timeLE := fun a b => Int.decLe a.time.instant b.time.instant

instance : IsTotal Point timeLE := ⟨fun a b => Int.le_total a.time.instant b.time.instant⟩

instance : IsTrans Point timeLE := ⟨fun _ _ _ h h2 => Int.le_trans h h2⟩

/-- `points = sorted(points, key=lambda x: x['time'])` (line 97).  Python's
`sorted` is a stable sort by the key; it is modelled by stable insertion sort
(any two stable sorts by the same key are extensionally equal). -/
def sortPoints (l : List Point) : List Point := List.insertionSort timeLE l

/-- The parsed command-line arguments of `main` that the pipeline reads.
`start`/`end` hold the date ordinal of the `-s`/`-e` values (the source parses
the flag string with `%Y-%m-%d` and takes `.date()`), `none` when the flag is
absent. -/
structure Args where
  output : List Char
  count : Int
  days : Int
  start : Option Int
  «end» : Option Int
deriving DecidableEq

/-- Line 101: `args.start is not None and points[i].time.date() < start_date`. -/
def beforeStart (args : Args) (p : Point) : Bool :=
  match args.start with
  | some sd => decide (p.time.dateOrd < sd)
  | none => false

/-- Line 105: `args.end is not None and points[i].time.date() > end_date`. -/
def afterEnd (args : Args) (p : Point) : Bool :=
  match args.«end» with
  | some ed => decide (p.time.dateOrd > ed)
  | none => false

/-- Python slice `l[s:e]` (for `0 ≤ s ≤ e`). -/
def pySlice {α : Type} (l : List α) (s e : Nat) : List α := (l.drop s).take (e - s)

/-- Line 108: `args.count > 0 and i - start >= args.count`. -/
def countFire (args : Args) (i s : Nat) : Bool :=
  decide (args.count > 0) && decide ((i : Int) - (s : Int) ≥ args.count)

/-- Line 112: `args.days > 0 and (points[i].time.date() - points[start].time.date()).days >= args.days`. -/
def daysFire (args : Args) (pts : List Point) (i s : Nat) : Bool :=
  decide (args.days > 0) &&
    decide ((pts.getD i dfltPoint).time.dateOrd - (pts.getD s dfltPoint).time.dateOrd ≥ args.days)

/-- The scan of lines 99-115, in fuel-passing style so that the definition is
structural (kernel-computable).  `fuel` is the number of loop iterations left
(`len(points) - i`), `i` the loop index, `s` the moving `start` anchor.  The
returned list collects, in order, the argument of every call of `dump`,
including the final `dump(points[start:])` after the loop (which the `break`
of the end-date filter also reaches with the current `start`). -/
def seqGo (args : Args) (pts : List Point) : Nat → Nat → Nat → List (List Point)
  | 0, _, s => [pts.drop s]
  | fuel + 1, i, s =>
    if beforeStart args (pts.getD i dfltPoint) then seqGo args pts fuel (i + 1) i
    else if afterEnd args (pts.getD i dfltPoint) then [pts.drop s]
    else if countFire args i s then
      if daysFire args pts i i then
        pySlice pts s i :: pySlice pts i i :: seqGo args pts fuel (i + 1) i
      else pySlice pts s i :: seqGo args pts fuel (i + 1) i
    else if daysFire args pts i s then
      pySlice pts s i :: seqGo args pts fuel (i + 1) i
    else seqGo args pts fuel (i + 1) s

/-- The arguments of all `dump` calls of one run, in call order: the loop
`for i in range(1, len(points))` makes `len(points) - 1` iterations starting
at `i = 1` with `start = 0`. -/
def dumpCalls (args : Args) (points : List Point) : List (List Point) :=
  seqGo args points (points.length - 1) 1 0

/-- Python `f"{n:05}"`: decimal digits left-padded with zeros to width 5. -/
def pad5 (n : Nat) : List Char :=
  List.replicate (5 - (Nat.toDigits 10 n).length) '0' ++ Nat.toDigits 10 n

/-- The literal `".gpx"`. -/
def gpxExt : List Char := ".gpx".toList

/-- Python `s.replace(old, new)` for a non-empty `old`: one left-to-right
non-overlapping pass, in fuel-passing style (`fuel ≥ s.length` on every call,
so the fuel never runs out). -/
def pyRepGo (pat repl : List Char) : Nat → List Char → List Char
  | 0, s => s
  | _ + 1, [] => []
  | fuel + 1, c :: rest =>
    if !pat.isEmpty && pat.isPrefixOf (c :: rest) then
      repl ++ pyRepGo pat repl fuel ((c :: rest).drop pat.length)
    else c :: pyRepGo pat repl fuel rest

/-- Python `s.replace(pat, repl)` (non-empty `pat`). -/
def pyReplace (pat repl s : List Char) : List Char := pyRepGo pat repl s.length s

/-- Lines 55-58: the name of the file with sequence number `n` for the base
output path: `output.replace(".gpx", f"_{n:05}.gpx")` when the base ends in
`.gpx`, else `f"{output}_{n:05}.gpx"`. -/
def outputName (output : List Char) (n : Nat) : List Char :=
  if gpxExt.isSuffixOf output then pyReplace gpxExt ('_' :: pad5 n ++ gpxExt) output
  else output ++ '_' :: pad5 n ++ gpxExt

/-- The closure `dump` of lines 52-60.  `points` is the enclosing `points`
variable of `main` (the full sorted list: the guard of line 54 reads the outer
list, not the chunk argument), `outputNumber` the captured counter.  Returns
the written file (name and serialized chunk), if any, and the new counter. -/
def dump (args : Args) (points : List Point) (outputNumber : Nat)
    (pointsToDump : List Point) : Option (List Char × List Point) × Nat :=
  if points.length > 0 then
    (some (outputName args.output outputNumber, pointsToDump), outputNumber + 1)
  else (none, outputNumber)

/-- All files written by a sequence of `dump` calls, threading the counter. -/
def runDumps (args : Args) (points : List Point) : Nat → List (List Point) → List (List Char × List Point)
  | _, [] => []
  | n, c :: rest =>
    match dump args points n c with
    | (some f, n2) => f :: runDumps args points n2 rest
    | (none, n2) => runDumps args points n2 rest

/-- The files written by one run of the sequencer plus writer on the sorted
point list `points`. -/
def writeFiles (args : Args) (points : List Point) : List (List Char × List Point) :=
  runDumps args points 0 (dumpCalls args points)

/-- The chunks of the written files, in emission order. -/
def emittedChunks (args : Args) (points : List Point) : List (List Point) :=
  (writeFiles args points).map Prod.snd

/-! ### Coordinate parsing (`split_latlng`, lines 8-10) -/

/-- Python `str.strip()`: drop leading and trailing whitespace. -/
def pyStrip (s : List Char) : List Char :=
  ((s.dropWhile Char.isWhitespace).reverse.dropWhile Char.isWhitespace).reverse

/-- Tail of a CPython `digitpart` after its first digit: `(["_"] digit)*`
(PEP 515: single underscores between digits). -/
def digitpartRest : List Char → Bool
  | [] => true
  | ['_'] => false
  | '_' :: c :: rest => c.isDigit && digitpartRest rest
  | c :: rest => c.isDigit && digitpartRest rest

/-- CPython `digitpart`: `digit (["_"] digit)*`. -/
def isDigitpart : List Char → Bool
  | [] => false
  | c :: rest => c.isDigit && digitpartRest rest

/-- Mantissa of a CPython float literal:
`digitpart ["." [digitpart]] | "." digitpart`. -/
def isFracMantissa (s : List Char) : Bool :=
  let ip := s.takeWhile (fun c => c != '.')
  let rest := s.dropWhile (fun c => c != '.')
  match rest with
  | [] => isDigitpart ip
  | _ :: frac =>
    if ip.isEmpty then isDigitpart frac
    else isDigitpart ip && (frac.isEmpty || isDigitpart frac)

/-- Exponent tail of a float literal: `[sign] digitpart`. -/
def isExpPart : List Char → Bool
  | '+' :: rest => isDigitpart rest
  | '-' :: rest => isDigitpart rest
  | s => isDigitpart s

/-- Strip one leading sign character. -/
def stripSign : List Char → List Char
  | '+' :: rest => rest
  | '-' :: rest => rest
  | s => s

/-- Case-insensitive `inf`, `infinity`, `nan`. -/
def isInfNan (s : List Char) : Bool :=
  let t := s.map Char.toLower
  t == "inf".toList || t == "infinity".toList || t == "nan".toList

/-- Whether Python's `float()` accepts the (already stripped) string: an
optional sign followed by `inf`/`infinity`/`nan` (case-insensitive) or by a
mantissa with an optional `e`/`E` exponent. -/
def isPyFloatLit (s : List Char) : Bool :=
  let body := stripSign s
  isInfNan body ||
    (let mant := body.takeWhile (fun c => c != 'e' && c != 'E')
     let rest := body.dropWhile (fun c => c != 'e' && c != 'E')
     match rest with
     | [] => isFracMantissa mant
     | _ :: ex => isFracMantissa mant && isExpPart ex)

/-- The two-character mojibake degree marker `"Â°"` stripped by
`split_latlng` (line 9). -/
def degreeGlyph : List Char := "Â°".toList

/-- `split_latlng` (lines 8-10): strip the degree glyph, split on every
comma, require exactly two fields (the tuple unpacking), strip and parse each
as float.  `none` models the raised `ValueError`. -/
def split_latlng (latlng : List Char) : Option (PyFloat × PyFloat) :=
  match (pyReplace degreeGlyph [] latlng).splitOn ',' with
  | [lat, lng] =>
    if isPyFloatLit (pyStrip lat) && isPyFloatLit (pyStrip lng) then
      some (⟨pyStrip lat⟩, ⟨pyStrip lng⟩)
    else none
  | _ => none

/-! ### Timestamp parsing (`datetime.strptime(_, "%Y-%m-%dT%H:%M:%S.%f%z")`) -/

/-- Numeric value of a decimal digit character. -/
def digitVal (c : Char) : Nat := c.toNat - '0'.toNat

/-- `%Y`: exactly four digits. -/
def parse4Digits : List Char → Option (Nat × List Char)
  | d1 :: d2 :: d3 :: d4 :: rest =>
    if d1.isDigit && d2.isDigit && d3.isDigit && d4.isDigit then
      some (((digitVal d1 * 10 + digitVal d2) * 10 + digitVal d3) * 10 + digitVal d4, rest)
    else none
  | _ => none

/-- A 1-2 digit field with value bounds, two digits preferred (the regex
alternations CPython uses for `%m`/`%d`/`%H`/`%M`/`%S`). -/
def parse2or1 (lo hi : Nat) : List Char → Option (Nat × List Char)
  | d1 :: d2 :: rest =>
    if d1.isDigit && d2.isDigit && lo ≤ digitVal d1 * 10 + digitVal d2 &&
        digitVal d1 * 10 + digitVal d2 ≤ hi then
      some (digitVal d1 * 10 + digitVal d2, rest)
    else if d1.isDigit && lo ≤ digitVal d1 && digitVal d1 ≤ hi then
      some (digitVal d1, d2 :: rest)
    else none
  | [d1] =>
    if d1.isDigit && lo ≤ digitVal d1 && digitVal d1 ≤ hi then some (digitVal d1, [])
    else none
  | [] => none

/-- Exactly two digits (as in the `%z` offset fields, unbounded value). -/
def parse2Digits : List Char → Option (Nat × List Char)
  | d1 :: d2 :: rest =>
    if d1.isDigit && d2.isDigit then some (digitVal d1 * 10 + digitVal d2, rest) else none
  | _ => none

/-- A literal character of the format string (CPython compiles the format
with `re.IGNORECASE`, so alphabetic literals match both cases). -/
def expectCh (c : Char) : List Char → Option (List Char)
  | x :: rest => if x == c || x == c.toUpper || x == c.toLower then some rest else none
  | [] => none

/-- Drop one leading colon (the optional `:` of the `%z` pattern). -/
def skipColon : List Char → List Char
  | ':' :: t => t
  | s => s

/-- Optional seconds of a `%z` offset: `:? digit digit` with an optional
fractional part whose microseconds the model drops (no claim involves
sub-minute UTC offsets). -/
def parseOffSec (s : List Char) : Option (Nat × List Char) :=
  match parse2Digits (skipColon s) with
  | none => none
  | some (ss, r) =>
    match r with
    | '.' :: t =>
      let ds := (t.takeWhile Char.isDigit).take 6
      if ds.isEmpty then some (ss, '.' :: t) else some (ss, t.drop ds.length)
    | _ => some (ss, r)

/-- Magnitude of a signed `%z` offset in seconds: `digit digit :? digit digit`
with optional seconds; `timezone` construction requires the offset to be
strictly less than 24 hours. -/
def parseOffMag (s : List Char) : Option (Nat × List Char) :=
  match parse2Digits s with
  | none => none
  | some (hh, r1) =>
    match parse2Digits (skipColon r1) with
    | none => none
    | some (mm, r2) =>
      match parseOffSec r2 with
      | some (ss, r3) =>
        if hh * 3600 + mm * 60 + ss < 86400 then some (hh * 3600 + mm * 60 + ss, r3) else none
      | none =>
        if hh * 3600 + mm * 60 < 86400 then some (hh * 3600 + mm * 60, r2) else none

/-- `%z`: `Z` (UTC, case-sensitive) or a signed offset. -/
def parseOffset : List Char → Option (Int × List Char)
  | 'Z' :: rest => some (0, rest)
  | '+' :: rest => (parseOffMag rest).map (fun p => ((p.1 : Int), p.2))
  | '-' :: rest => (parseOffMag rest).map (fun p => (-(p.1 : Int), p.2))
  | _ => none

/-- Microsecond value of a `%f` digit string (right-padded to six digits). -/
def fracVal (ds : List Char) : Nat :=
  ds.foldl (fun a c => a * 10 + digitVal c) 0 * 10 ^ (6 - ds.length)

/-- `datetime.strptime(s, "%Y-%m-%dT%H:%M:%S.%f%z")`; `none` models the
raised `ValueError` (mismatch or unconverted trailing data). -/
def strptimeTs (s : List Char) : Option PyDateTime :=
  match parse4Digits s with
  | none => none
  | some (y, r1) =>
    match expectCh '-' r1 with
    | none => none
    | some r2 =>
      match parse2or1 1 12 r2 with
      | none => none
      | some (mo, r3) =>
        match expectCh '-' r3 with
        | none => none
        | some r4 =>
          match parse2or1 1 31 r4 with
          | none => none
          | some (d, r5) =>
            match expectCh 'T' r5 with
            | none => none
            | some r6 =>
              match parse2or1 0 23 r6 with
              | none => none
              | some (h, r7) =>
                match expectCh ':' r7 with
                | none => none
                | some r8 =>
                  match parse2or1 0 59 r8 with
                  | none => none
                  | some (mi, r9) =>
                    match expectCh ':' r9 with
                    | none => none
                    | some r10 =>
                      match parse2or1 0 61 r10 with
                      | none => none
                      | some (sec, r11) =>
                        match expectCh '.' r11 with
                        | none => none
                        | some r12 =>
                          let ds := (r12.takeWhile Char.isDigit).take 6
                          if ds.isEmpty then none
                          else
                            match parseOffset (r12.drop ds.length) with
                            | some (off, []) => some ⟨y, mo, d, h, mi, sec, fracVal ds, off⟩
                            | _ => none

/-! ### Loader and flattener (lines 63-96) -/

/-- The two exception kinds the flattener can raise: `KeyError` from a missing
`startTime`/`endTime` key, `ValueError` from `strptime`/`float`. -/
inductive PyErr where
  | keyError : PyErr
  | valueError : PyErr
deriving DecidableEq

/-- One raw element of a `timelinePath` array: the `point` coordinate string
and the `time` timestamp string. -/
structure RawTimelinePoint where
  point : List Char
  time : List Char
deriving DecidableEq

/-- One element of `semanticSegments`: `startTime`/`endTime` may be absent
(`KeyError` when read), `timelinePath` is optional (line 70 checks membership). -/
structure Segment where
  startTime : Option (List Char)
  endTime : Option (List Char)
  timelinePath : Option (List RawTimelinePoint)
deriving DecidableEq

/-- Lines 72-78: build one `Point` per raw path point, `split_latlng` on the
`point` string first, then `strptime` on the `time` string. -/
def pathPoints : List RawTimelinePoint → Except PyErr (List Point)
  | [] => .ok []
  | r :: rest =>
    match split_latlng r.point with
    | none => .error .valueError
    | some (lat, lng) =>
      match strptimeTs r.time with
      | none => .error .valueError
      | some t =>
        match pathPoints rest with
        | .error e => .error e
        | .ok ps => .ok (⟨t, lat, lng⟩ :: ps)

/-- Lines 68-78 for one segment: `startTime` and `endTime` are read and
parsed unconditionally (before and regardless of the `timelinePath` check);
then the segment's path points, if any, are flattened. -/
def segmentPoints (seg : Segment) : Except PyErr (List Point) :=
  match seg.startTime with
  | none => .error .keyError
  | some st =>
    match strptimeTs st with
    | none => .error .valueError
    | some _ =>
      match seg.endTime with
      | none => .error .keyError
      | some et =>
        match strptimeTs et with
        | none => .error .valueError
        | some _ =>
          match seg.timelinePath with
          | none => .ok []
          | some raws => pathPoints raws

/-- The whole flattening loop of lines 67-78: segments in order, appending
each segment's points; the first exception aborts the run. -/
def flattenSegments : List Segment → Except PyErr (List Point)
  | [] => .ok []
  | seg :: rest =>
    match segmentPoints seg with
    | .error e => .error e
    | .ok ps =>
      match flattenSegments rest with
      | .error e => .error e
      | .ok qs => .ok (ps ++ qs)

/-- The flattened point list of a run whose flattening succeeded. -/
def flatPoints (segs : List Segment) : List Point :=
  match flattenSegments segs with
  | .ok l => l
  | .error _ => []

/-- Number of `timelinePath` entries over all segments that have one
(segments without a `timelinePath` contribute zero). -/
def totalTimelineEntries (segs : List Segment) : Nat :=
  (segs.map fun s =>
    match s.timelinePath with
    | some l => l.length
    | none => 0).sum

/-! ### Top level (`main`, lines 40-115) -/

/-- Everything that can end a run with an error: the two logged precondition
failures of lines 40-45 and an uncaught flattener exception. -/
inductive RunError where
  | alreadyExists : RunError
  | notFound : RunError
  | pyErr : PyErr → RunError
deriving DecidableEq

/-- Observable outcome of one run: whether the input file was opened, the
files written, and the error that ended the run, if any. -/
structure RunResult where
  inputOpened : Bool
  written : List (List Char × List Point)
  err : Option RunError
deriving DecidableEq

/-- `main` (lines 40-115): the output-existence check (line 40) runs first,
the input-existence check (line 43) second, and only then is the input opened
(line 63), flattened, sorted and chunked. -/
def mainModel (args : Args) (outputExists inputExists : Bool) (segs : List Segment) : RunResult :=
  if outputExists then ⟨false, [], some .alreadyExists⟩
  else if !inputExists then ⟨false, [], some .notFound⟩
  else
    match flattenSegments segs with
    | .error e => ⟨true, [], some (.pyErr e)⟩
    | .ok pts => ⟨true, writeFiles args (sortPoints pts), none⟩

/-! ### Auxiliary specification-side definitions -/

/-- Number of positions of `s` at which `pat` occurs (as a contiguous
substring); used to state when a base path contains `.gpx` exactly once. -/
def occCount (pat : List Char) : List Char → Nat
  | [] => if pat.isEmpty then 1 else 0
  | c :: rest => (if pat.isPrefixOf (c :: rest) then 1 else 0) + occCount pat rest

/-- A segment whose `startTime` or `endTime` is missing or does not match the
canonical timestamp format. -/
def headerBad (seg : Segment) : Bool :=
  (match seg.startTime with
    | none => true
    | some st => (strptimeTs st).isNone) ||
  (match seg.endTime with
    | none => true
    | some et => (strptimeTs et).isNone)

/-- Modelled from the words of the specification of `split_latlng`: after
stripping the degree glyph, the string splits on comma into exactly two parts
that both parse as floating point after trimming. -/
def splitsIntoTwoNumericParts (s : List Char) : Bool :=
  ((pyReplace degreeGlyph [] s).splitOn ',').length == 2 &&
    ((pyReplace degreeGlyph [] s).splitOn ',').all (fun p => isPyFloatLit (pyStrip p))

/-- A concrete point dated `y-m-d` at hour `h` UTC, for concrete runs. -/
def samplePt (y m d h : Nat) : Point := ⟨⟨y, m, d, h, 0, 0, 0, 0⟩, ⟨['1']⟩, ⟨['2']⟩⟩

/-- Arguments with no limits and no date filters. -/
def wArgs : Args := ⟨"out.gpx".toList, -1, -1, none, none⟩

/-- A segment with one timeline-path entry, all fields well formed. -/
def wSeg1 : Segment :=
  ⟨some "2024-01-01T00:00:00.000000+00:00".toList,
    some "2024-01-01T01:00:00.000000+00:00".toList,
    some [⟨"55.75, 37.62".toList, "2024-01-01T00:30:00.000000+00:00".toList⟩]⟩

/-- A well-formed segment without a `timelinePath`. -/
def wSeg2 : Segment :=
  ⟨some "2024-01-02T00:00:00.000000+00:00".toList,
    some "2024-01-02T01:00:00.000000+00:00".toList, none⟩

/-- A two-segment document whose flattening succeeds with one point. -/
def wSegs : List Segment := [wSeg1, wSeg2]

/-- A segment lacking both header fields (and any `timelinePath`). -/
def badSeg : Segment := ⟨none, none, none⟩

/-! ### Helper lemmas -/

theorem pySlice_append_drop {α : Type} (l : List α) {s i : Nat} (h : s ≤ i) :
    pySlice l s i ++ l.drop i = l.drop s := by
  have h2 : l.drop i = (l.drop s).drop (i - s) := by
    rw [List.drop_drop]
    congr 1
    omega
  rw [pySlice, h2, List.take_append_drop]

theorem pySlice_self (l : List α) (i : Nat) : pySlice l i i = [] := by
  simp [pySlice]

theorem pySlice_ne_nil {α : Type} {l : List α} {s i : Nat} (h1 : s < i) (h2 : s < l.length) :
    pySlice l s i ≠ [] := by
  rw [pySlice]
  intro hc
  rcases List.take_eq_nil_iff.mp hc with h | h
  · omega
  · rw [List.drop_eq_nil_iff] at h
    omega

theorem pySlice_sublist {α : Type} (l : List α) (s i : Nat) : (pySlice l s i).Sublist l :=
  (List.take_sublist _ _).trans (List.drop_sublist _ _)

theorem pySlice_length {α : Type} (l : List α) {s i : Nat} (h1 : s ≤ i) (h2 : i ≤ l.length) :
    (pySlice l s i).length = i - s := by
  rw [pySlice, List.length_take, List.length_drop,
    min_eq_left (by omega : i - s ≤ l.length - s)]

theorem daysFire_self_false {args : Args} {pts : List Point} {i : Nat}
    (h : daysFire args pts i i = true) : False := by
  simp only [daysFire, Bool.and_eq_true, decide_eq_true_eq] at h
  omega

theorem daysFire_eq_false {args : Args} (hd : args.days ≤ 0) (pts : List Point) (i s : Nat) :
    daysFire args pts i s = false := by
  have h : (decide (args.days > 0)) = false := by
    simp only [decide_eq_false_iff_not]
    omega
  simp [daysFire, h]

theorem beforeStart_none {args : Args} (h : args.start = none) (p : Point) :
    beforeStart args p = false := by
  simp [beforeStart, h]

theorem afterEnd_none {args : Args} (h : args.«end» = none) (p : Point) :
    afterEnd args p = false := by
  simp [afterEnd, h]

theorem runDumps_map_snd (args : Args) (pts : List Point) :
    ∀ (calls : List (List Point)) (n : Nat),
      (runDumps args pts n calls).map Prod.snd = if 0 < pts.length then calls else [] := by
  intro calls
  induction calls with
  | nil =>
    intro n
    by_cases h : 0 < pts.length <;> simp [runDumps, h]
  | cons c rest ih =>
    intro n
    by_cases h : 0 < pts.length <;> simp [runDumps, dump, h, ih]

theorem emittedChunks_ite (args : Args) (pts : List Point) :
    emittedChunks args pts = if 0 < pts.length then dumpCalls args pts else [] := by
  rw [emittedChunks, writeFiles, runDumps_map_snd]

theorem seqGo_sublist (args : Args) (pts : List Point) :
    ∀ (fuel i s : Nat), ∀ c ∈ seqGo args pts fuel i s, c.Sublist pts := by
  intro fuel
  induction fuel with
  | zero =>
    intro i s c hc
    simp only [seqGo, List.mem_singleton] at hc
    subst hc
    exact List.drop_sublist _ _
  | succ fuel ih =>
    intro i s c hc
    simp only [seqGo] at hc
    split at hc
    · exact ih _ _ c hc
    · split at hc
      · simp only [List.mem_singleton] at hc
        subst hc
        exact List.drop_sublist _ _
      · split at hc
        · split at hc
          · simp only [List.mem_cons] at hc
            rcases hc with rfl | rfl | hc
            · exact pySlice_sublist pts s i
            · exact pySlice_sublist pts i i
            · exact ih _ _ c hc
          · simp only [List.mem_cons] at hc
            rcases hc with rfl | hc
            · exact pySlice_sublist pts s i
            · exact ih _ _ c hc
        · split at hc
          · simp only [List.mem_cons] at hc
            rcases hc with rfl | hc
            · exact pySlice_sublist pts s i
            · exact ih _ _ c hc
          · exact ih _ _ c hc

theorem seqGo_flatten (args : Args) (pts : List Point)
    (hs : args.start = none) (he : args.«end» = none) :
    ∀ (fuel i s : Nat), s ≤ i → (seqGo args pts fuel i s).flatten = pts.drop s := by
  intro fuel
  induction fuel with
  | zero =>
    intro i s _
    simp [seqGo]
  | succ fuel ih =>
    intro i s hsi
    simp only [seqGo, beforeStart_none hs, afterEnd_none he, Bool.false_eq_true, if_false]
    split
    · split
      · rw [List.flatten_cons, List.flatten_cons, ih (i + 1) i (by omega), pySlice_self,
          List.nil_append]
        exact pySlice_append_drop pts hsi
      · rw [List.flatten_cons, ih (i + 1) i (by omega)]
        exact pySlice_append_drop pts hsi
    · split
      · rw [List.flatten_cons, ih (i + 1) i (by omega)]
        exact pySlice_append_drop pts hsi
      · exact ih (i + 1) s (by omega)

theorem seqGo_ne_nil (args : Args) (pts : List Point) :
    ∀ (fuel i s : Nat), s < i → s < pts.length → fuel + i ≤ pts.length →
      ∀ c ∈ seqGo args pts fuel i s, c ≠ [] := by
  intro fuel
  induction fuel with
  | zero =>
    intro i s _ h2 _ c hc
    simp only [seqGo, List.mem_singleton] at hc
    subst hc
    intro hdrop
    rw [List.drop_eq_nil_iff] at hdrop
    omega
  | succ fuel ih =>
    intro i s h1 h2 h3 c hc
    have hi : i < pts.length := by omega
    simp only [seqGo] at hc
    split at hc
    · exact ih (i + 1) i (by omega) hi (by omega) c hc
    · split at hc
      · simp only [List.mem_singleton] at hc
        subst hc
        intro hdrop
        rw [List.drop_eq_nil_iff] at hdrop
        omega
      · split at hc
        · split at hc
          · rename_i hdf
            exact (daysFire_self_false hdf).elim
          · simp only [List.mem_cons] at hc
            rcases hc with rfl | hc
            · exact pySlice_ne_nil h1 h2
            · exact ih (i + 1) i (by omega) hi (by omega) c hc
        · split at hc
          · simp only [List.mem_cons] at hc
            rcases hc with rfl | hc
            · exact pySlice_ne_nil h1 h2
            · exact ih (i + 1) i (by omega) hi (by omega) c hc
          · exact ih (i + 1) s (by omega) h2 (by omega) c hc

theorem seqGo_shape (args : Args) (pts : List Point) {N : Nat}
    (hcnt : args.count = (N : Int)) (hN : 0 < N) (hd : args.days ≤ 0) :
    ∀ (fuel i s : Nat), s ≤ i → i - s ≤ N → fuel + i ≤ pts.length →
      ∃ l s2, seqGo args pts fuel i s = l ++ [pts.drop s2] ∧ ∀ c ∈ l, c.length = N := by
  intro fuel
  induction fuel with
  | zero =>
    intro i s _ _ _
    exact ⟨[], s, rfl, by simp⟩
  | succ fuel ih =>
    intro i s h1 h2 h3
    have hi : i < pts.length := by omega
    simp only [seqGo, daysFire_eq_false hd, Bool.false_eq_true, if_false]
    split
    · exact ih (i + 1) i (by omega) (by omega) (by omega)
    · split
      · exact ⟨[], s, rfl, by simp⟩
      · split
        · rename_i hcf
          have hisN : i - s = N := by
            simp only [countFire, Bool.and_eq_true, decide_eq_true_eq] at hcf
            rw [hcnt] at hcf
            omega
          obtain ⟨l, s2, heq, hall⟩ := ih (i + 1) i (by omega) (by omega) (by omega)
          refine ⟨pySlice pts s i :: l, s2, ?_, ?_⟩
          · rw [heq]
            rfl
          · intro c hcm
            rcases List.mem_cons.mp hcm with rfl | hcm
            · rw [pySlice_length pts h1 (le_of_lt hi)]
              omega
            · exact hall c hcm
        · rename_i hncf
          have : i - s < N := by
            simp only [countFire, Bool.and_eq_true, decide_eq_true_eq, not_and, not_le] at hncf
            rw [hcnt] at hncf
            omega
          exact ih (i + 1) s (by omega) (by omega) (by omega)

theorem pathPoints_length : ∀ (raws : List RawTimelinePoint) (l : List Point),
    pathPoints raws = .ok l → l.length = raws.length := by
  intro raws
  induction raws with
  | nil =>
    intro l h
    simp only [pathPoints, Except.ok.injEq] at h
    subst h
    rfl
  | cons r rest ih =>
    intro l h
    simp only [pathPoints] at h
    rcases h1 : split_latlng r.point with _ | ⟨lat, lng⟩
    all_goals rw [h1] at h
    · simp at h
    · rcases h2 : strptimeTs r.time with _ | t
      all_goals rw [h2] at h
      · simp at h
      · rcases h3 : pathPoints rest with e | ps
        all_goals rw [h3] at h
        · simp at h
        · simp only [Except.ok.injEq] at h
          subst h
          simp [ih ps h3]

theorem segmentPoints_length (seg : Segment) (l : List Point) (h : segmentPoints seg = .ok l) :
    l.length = (match seg.timelinePath with | some raws => raws.length | none => 0) := by
  unfold segmentPoints at h
  split at h
  · simp at h
  · split at h
    · simp at h
    · split at h
      · simp at h
      · split at h
        · simp at h
        · split at h
          · rename_i htl
            simp only [Except.ok.injEq] at h
            subst h
            rw [htl]
            rfl
          · rename_i raws htl
            rw [htl]
            exact pathPoints_length raws l h

theorem flattenSegments_ok_length : ∀ (segs : List Segment) (l : List Point),
    flattenSegments segs = .ok l → l.length = totalTimelineEntries segs := by
  intro segs
  induction segs with
  | nil =>
    intro l h
    simp only [flattenSegments, Except.ok.injEq] at h
    subst h
    rfl
  | cons seg rest ih =>
    intro l h
    simp only [flattenSegments] at h
    rcases h1 : segmentPoints seg with e | ps
    all_goals rw [h1] at h
    · simp at h
    · rcases h2 : flattenSegments rest with e | qs
      all_goals rw [h2] at h
      · simp at h
      · simp only [Except.ok.injEq] at h
        subst h
        rw [List.length_append, segmentPoints_length seg ps h1, ih qs h2]
        simp [totalTimelineEntries]

theorem flatPoints_length (segs : List Segment) (hok : (flattenSegments segs).isOk = true) :
    (flatPoints segs).length = totalTimelineEntries segs := by
  rcases h : flattenSegments segs with e | l
  · rw [h] at hok
    simp [Except.isOk, Except.toBool] at hok
  · unfold flatPoints
    rw [h]
    exact flattenSegments_ok_length segs l h

theorem segmentPoints_error_of_bad (seg : Segment) (hb : headerBad seg = true) :
    ∃ e, segmentPoints seg = .error e := by
  unfold segmentPoints
  rcases h1 : seg.startTime with _ | st
  · simp only [h1]
    exact ⟨_, rfl⟩
  · simp only [h1]
    rcases h2 : strptimeTs st with _ | t
    · simp only [h2]
      exact ⟨_, rfl⟩
    · simp only [h2]
      rcases h3 : seg.endTime with _ | et
      · simp only [h3]
        exact ⟨_, rfl⟩
      · simp only [h3]
        rcases h4 : strptimeTs et with _ | t2
        · simp only [h4]
          exact ⟨_, rfl⟩
        · exfalso
          simp only [headerBad, h1, h2, h3, h4, Option.isNone_some, Bool.or_self] at hb
          exact Bool.false_ne_true hb

theorem filter_orderedInsert (t : Int) (a : Point) (l : List Point) :
    List.filter (fun p => decide (p.time.instant = t)) (List.orderedInsert timeLE a l) =
      List.filter (fun p => decide (p.time.instant = t)) (a :: l) := by
  induction l with
  | nil => rfl
  | cons b l ih =>
    simp only [List.orderedInsert]
    split
    · rfl
    · rename_i hab
      have hba : b.time.instant < a.time.instant := by
        unfold timeLE at hab
        omega
      by_cases hb : b.time.instant = t <;> by_cases ha : a.time.instant = t
      · omega
      · simp [List.filter_cons, hb, ha, ih]
      · simp [List.filter_cons, hb, ha, ih]
      · simp [List.filter_cons, hb, ha, ih]

theorem filter_sortPoints (t : Int) (l : List Point) :
    List.filter (fun p => decide (p.time.instant = t)) (sortPoints l) =
      List.filter (fun p => decide (p.time.instant = t)) l := by
  induction l with
  | nil => rfl
  | cons a l ih =>
    simp only [sortPoints] at ih ⊢
    rw [List.insertionSort, filter_orderedInsert, List.filter_cons, List.filter_cons, ih]

theorem isPrefixOf_append_self (l t : List Char) : l.isPrefixOf (l ++ t) = true := by
  rw [List.isPrefixOf_iff_prefix]
  exact List.prefix_append l t

theorem isSuffixOf_append_self (l s : List Char) : l.isSuffixOf (s ++ l) = true := by
  rw [List.isSuffixOf, List.reverse_append]
  exact isPrefixOf_append_self _ _

theorem occCount_pos (pat : List Char) (hp : pat ≠ []) :
    ∀ stem, 1 ≤ occCount pat (stem ++ pat) := by
  intro stem
  induction stem with
  | nil =>
    rcases pat with _ | ⟨c, pr⟩
    · exact absurd rfl hp
    · have hpre : (c :: pr).isPrefixOf (c :: pr) = true := by
        have h := isPrefixOf_append_self (c :: pr) []
        rwa [List.append_nil] at h
      simp only [List.nil_append, occCount, hpre, if_true]
      omega
  | cons c stem2 ih =>
    simp only [List.cons_append, occCount, List.append_eq]
    by_cases hp2 : pat.isPrefixOf (c :: (stem2 ++ pat)) = true
    · rw [if_pos hp2]
      omega
    · rw [if_neg hp2]
      omega

theorem pyRepGo_nil (pat repl : List Char) (fuel : Nat) : pyRepGo pat repl fuel [] = [] := by
  cases fuel <;> rfl

theorem pyRepGo_unique (pat repl : List Char) (hp : pat ≠ []) :
    ∀ (stem : List Char) (fuel : Nat), stem.length + pat.length ≤ fuel →
      occCount pat (stem ++ pat) = 1 → pyRepGo pat repl fuel (stem ++ pat) = stem ++ repl := by
  intro stem
  induction stem with
  | nil =>
    intro fuel hf hocc
    rcases pat with _ | ⟨c, pr⟩
    · exact absurd rfl hp
    · rcases fuel with _ | f
      · simp at hf
      · have hpre : (c :: pr).isPrefixOf (c :: pr) = true := by
          have h := isPrefixOf_append_self (c :: pr) []
          rwa [List.append_nil] at h
        simp [pyRepGo, hpre, List.drop_length, pyRepGo_nil]
  | cons ch stem2 ih =>
    intro fuel hf hocc
    have hpos := occCount_pos pat hp stem2
    have hocc2 : occCount pat (stem2 ++ pat) = 1 ∧ pat.isPrefixOf (ch :: (stem2 ++ pat)) = false := by
      simp only [List.cons_append, occCount, List.append_eq] at hocc
      split at hocc
      · omega
      · rename_i hnp
        simp only [Bool.not_eq_true] at hnp
        exact ⟨by omega, hnp⟩
    rcases fuel with _ | f
    · simp at hf
    · have hcond : (!pat.isEmpty && pat.isPrefixOf (ch :: (stem2 ++ pat))) = false := by
        simp [hocc2.2]
      simp only [List.cons_append, pyRepGo, List.append_eq, hcond, Bool.false_eq_true, if_false]
      have hf2 : stem2.length + pat.length ≤ f := by
        simp only [List.length_cons] at hf
        omega
      rw [ih f hf2 hocc2.1]

theorem pyReplace_unique (pat repl stem : List Char) (hp : pat ≠ [])
    (hocc : occCount pat (stem ++ pat) = 1) :
    pyReplace pat repl (stem ++ pat) = stem ++ repl := by
  rw [pyReplace]
  exact pyRepGo_unique pat repl hp stem _ (by simp) hocc

/-! ### Claim theorems -/

/-- C1: the claim says that with `--start 2024-01-03` and points dated
Jan 1 .. Jan 4, the single emitted chunk contains exactly the points of Jan 3
and Jan 4 and no point dated before the start date.  The code disagrees: the
start-date filter sets `start = i` on the offending index, and that index
itself stays in the final slice `points[start:]`, so the emitted chunk is
`[Jan 2, Jan 3, Jan 4]` and contains a point dated strictly before the start
date. -/
theorem start_filter_run_emits_anchor_point :
    emittedChunks ⟨"out.gpx".toList, -1, -1, some ((daysFromCivil 2024 1 3 : Nat) : Int), none⟩
        (sortPoints [samplePt 2024 1 1 12, samplePt 2024 1 2 12, samplePt 2024 1 3 12,
          samplePt 2024 1 4 12]) =
      [[samplePt 2024 1 2 12, samplePt 2024 1 3 12, samplePt 2024 1 4 12]] ∧
    (samplePt 2024 1 2 12).time.dateOrd < ((daysFromCivil 2024 1 3 : Nat) : Int) := by
  decide

/-- C2: with no start or end date filter, the sum of the point counts over
all emitted chunks equals the number of `timelinePath` entries over all
segments that have one (segments without a `timelinePath` contribute zero). -/
theorem chunk_point_count_totals (args : Args) (segs : List Segment)
    (hs : args.start = none) (he : args.«end» = none)
    (hok : (flattenSegments segs).isOk = true) :
    ((emittedChunks args (sortPoints (flatPoints segs))).map List.length).sum =
      totalTimelineEntries segs := by
  have hlen := flatPoints_length segs hok
  rw [emittedChunks_ite]
  by_cases hp : 0 < (sortPoints (flatPoints segs)).length
  · rw [if_pos hp]
    have hjoin : (dumpCalls args (sortPoints (flatPoints segs))).flatten =
        sortPoints (flatPoints segs) := by
      have h := seqGo_flatten args (sortPoints (flatPoints segs)) hs he
        ((sortPoints (flatPoints segs)).length - 1) 1 0 (by omega)
      rw [List.drop_zero] at h
      exact h
    rw [← List.length_flatten, hjoin, sortPoints, List.length_insertionSort, hlen]
  · rw [if_neg hp]
    have h0 : (sortPoints (flatPoints segs)).length = 0 := by omega
    rw [sortPoints, List.length_insertionSort] at h0
    simp only [List.map_nil, List.sum_nil]
    omega

/-- C2 witness: a concrete two-segment document (one path-bearing segment
with one entry, one segment without a `timelinePath`) run with no filters. -/
theorem chunk_point_count_totals_witness :
    (flattenSegments wSegs).isOk = true ∧
      ((emittedChunks wArgs (sortPoints (flatPoints wSegs))).map List.length).sum =
        totalTimelineEntries wSegs :=
  ⟨by decide, chunk_point_count_totals wArgs wSegs rfl rfl (by decide)⟩

/-- C3: every emitted chunk is internally sorted ascending by point time, and
with no start or end date filter the concatenation of the emitted chunks in
emission order is exactly the stable time-sorted permutation of the flattened
point sequence (sorted by the time key, a permutation, and preserving the
relative order of points with equal time key). -/
theorem chunks_sorted_concat_is_stable_sort (args : Args) (segs : List Segment) :
    (∀ c ∈ emittedChunks args (sortPoints (flatPoints segs)), List.Pairwise timeLE c) ∧
      (args.start = none → args.«end» = none →
        (emittedChunks args (sortPoints (flatPoints segs))).flatten =
            sortPoints (flatPoints segs) ∧
          List.Sorted timeLE (sortPoints (flatPoints segs)) ∧
          (sortPoints (flatPoints segs)).Perm (flatPoints segs) ∧
          ∀ t : Int,
            (sortPoints (flatPoints segs)).filter (fun p => decide (p.time.instant = t)) =
              (flatPoints segs).filter (fun p => decide (p.time.instant = t))) := by
  constructor
  · intro c hcm
    rw [emittedChunks_ite] at hcm
    by_cases hp : 0 < (sortPoints (flatPoints segs)).length
    · rw [if_pos hp] at hcm
      exact List.Pairwise.sublist (seqGo_sublist args _ _ _ _ c hcm)
        (List.sorted_insertionSort timeLE (flatPoints segs))
    · rw [if_neg hp] at hcm
      simp at hcm
  · intro hs he
    refine ⟨?_, List.sorted_insertionSort timeLE _, List.perm_insertionSort timeLE _,
      fun t => filter_sortPoints t _⟩
    rw [emittedChunks_ite]
    by_cases hp : 0 < (sortPoints (flatPoints segs)).length
    · rw [if_pos hp, dumpCalls]
      have h := seqGo_flatten args (sortPoints (flatPoints segs)) hs he
        ((sortPoints (flatPoints segs)).length - 1) 1 0 (by omega)
      rw [List.drop_zero] at h
      exact h
    · rw [if_neg hp]
      have h0 : sortPoints (flatPoints segs) = [] := by
        rcases hq : sortPoints (flatPoints segs) with _ | ⟨p, rest⟩
        · rfl
        · rw [hq] at hp
          simp at hp
      rw [h0]
      rfl

/-- C3 witness: on the concrete document, the concatenation of the emitted
chunks is the sorted flattened sequence. -/
theorem chunks_sorted_concat_is_stable_sort_witness :
    (emittedChunks wArgs (sortPoints (flatPoints wSegs))).flatten =
      sortPoints (flatPoints wSegs) :=
  (((chunks_sorted_concat_is_stable_sort wArgs wSegs).2 rfl rfl)).1

/-- C4: with a point-count limit `N > 0` and no day-span limit, every emitted
chunk except the last contains exactly `N` points. -/
theorem nonfinal_chunks_have_exactly_count_points (args : Args) (pts : List Point) (N : Nat)
    (hcnt : args.count = (N : Int)) (hN : 0 < N) (hd : args.days ≤ 0) :
    ∀ c ∈ (emittedChunks args pts).dropLast, c.length = N := by
  intro c hcm
  rw [emittedChunks_ite] at hcm
  by_cases hp : 0 < pts.length
  · rw [if_pos hp] at hcm
    obtain ⟨l, s2, heq, hall⟩ :=
      seqGo_shape args pts hcnt hN hd (pts.length - 1) 1 0 (by omega) (by omega) (by omega)
    rw [dumpCalls, heq, List.dropLast_concat] at hcm
    exact hall c hcm
  · rw [if_neg hp] at hcm
    simp at hcm

/-- C4 witness: with `count = 2` on three points, the only non-final emitted
chunk has exactly two points. -/
theorem nonfinal_chunks_have_exactly_count_points_witness :
    ([samplePt 2024 1 1 0, samplePt 2024 1 1 1] : List Point).length = 2 :=
  nonfinal_chunks_have_exactly_count_points ⟨"out.gpx".toList, 2, -1, none, none⟩
    [samplePt 2024 1 1 0, samplePt 2024 1 1 1, samplePt 2024 1 1 2] 2 rfl (by decide)
    (by decide) [samplePt 2024 1 1 0, samplePt 2024 1 1 1] (by decide)

/-- C5: the claim says that with `days = D > 0` every emitted chunk spans
strictly fewer than `D` calendar days between its first and last point.  The
code disagrees when an end-date filter is also set: the end-date check
`break`s out of the scan, but the final `dump(points[start:])` still flushes
everything from `start` to the end of the list, including the out-of-range
tail.  With `days = 3`, `end = 2024-01-02` and points dated Jan 1, Jan 1,
Jan 9, the single emitted chunk spans 8 days. -/
theorem end_filter_run_violates_day_span :
    emittedChunks ⟨"out.gpx".toList, -1, 3, none, some ((daysFromCivil 2024 1 2 : Nat) : Int)⟩
        (sortPoints [samplePt 2024 1 1 0, samplePt 2024 1 1 1, samplePt 2024 1 9 0]) =
      [[samplePt 2024 1 1 0, samplePt 2024 1 1 1, samplePt 2024 1 9 0]] ∧
    ¬((samplePt 2024 1 9 0).time.dateOrd - (samplePt 2024 1 1 0).time.dateOrd < 3) := by
  decide

/-- C6 counterexample: the claim says the sequence number is inserted
immediately before the trailing `.gpx` and no other part of the base path is
altered.  `str.replace` rewrites every occurrence: for the base path
`a.gpx.gpx` the first written file is `a_00000.gpx_00000.gpx`, not the
claimed `a.gpx_00000.gpx`. -/
theorem outputName_rewrites_every_occurrence :
    outputName "a.gpx.gpx".toList 0 = "a_00000.gpx_00000.gpx".toList ∧
      outputName "a.gpx.gpx".toList 0 ≠ "a.gpx_00000.gpx".toList := by
  decide

/-- C6 (amended): when the base path ends in `.gpx` and contains only that
one occurrence of `.gpx`, the file name is obtained by inserting `_NNNNN`
(the zero-padded 5-digit sequence number) before the extension; when the base
path does not end in `.gpx`, `_NNNNN.gpx` is appended.  (When `.gpx` occurs
several times, every occurrence is rewritten.) -/
theorem outputName_unique_ext_spec (n : Nat) (stem out2 : List Char)
    (h1 : occCount gpxExt (stem ++ gpxExt) = 1)
    (h2 : gpxExt.isSuffixOf out2 = false) :
    outputName (stem ++ gpxExt) n = stem ++ '_' :: pad5 n ++ gpxExt ∧
      outputName out2 n = out2 ++ '_' :: pad5 n ++ gpxExt := by
  constructor
  · rw [outputName, if_pos (isSuffixOf_append_self gpxExt stem)]
    have h3 := pyReplace_unique gpxExt ('_' :: pad5 n ++ gpxExt) stem (by decide) h1
    simpa using h3
  · rw [outputName, if_neg (by simp [h2])]

/-- C6 witness: base paths `track.gpx` and `track`, sequence number 7. -/
theorem outputName_unique_ext_spec_witness :
    outputName ("track".toList ++ gpxExt) 7 = "track".toList ++ '_' :: pad5 7 ++ gpxExt ∧
      outputName "track".toList 7 = "track".toList ++ '_' :: pad5 7 ++ gpxExt :=
  outputName_unique_ext_spec 7 "track".toList "track".toList (by decide) (by decide)

/-- C7: if the output path already exists, the run writes no files, ends with
the already-exists error, and returns before the input path is opened or even
checked for existence (the result is the same whether or not the input
exists). -/
theorem existing_output_aborts_before_input (args : Args) (inputExists : Bool)
    (segs : List Segment) :
    mainModel args true inputExists segs = ⟨false, [], some RunError.alreadyExists⟩ := rfl

/-- C8: whenever `dump` is invoked on a chunk with zero points it produces no
file and leaves the sequence counter unchanged; in particular on an input
that yields an empty point list the final flush of `points[start:]` writes
nothing. -/
theorem empty_chunk_writes_no_file :
    (∀ (args : Args) (pts : List Point) (n : Nat) (c : List Point),
        c ∈ dumpCalls args pts → c = [] → dump args pts n c = (none, n)) ∧
      ∀ args : Args, writeFiles args [] = [] := by
  constructor
  · intro args pts n c hm hce
    have hpts : pts = [] := by
      by_contra hne
      exact seqGo_ne_nil args pts (pts.length - 1) 1 0 (by omega)
        (by have := List.length_pos.mpr hne; omega)
        (by have := List.length_pos.mpr hne; omega) c hm hce
    subst hpts
    subst hce
    rfl
  · intro args
    rfl

/-- C8 witness: the empty-input run: its only `dump` call is on the empty
final chunk and writes nothing. -/
theorem empty_chunk_writes_no_file_witness :
    dump wArgs [] 0 [] = (none, 0) ∧ writeFiles wArgs [] = [] :=
  ⟨empty_chunk_writes_no_file.1 wArgs [] 0 [] (by decide) rfl,
    empty_chunk_writes_no_file.2 wArgs⟩

/-- C9: `split_latlng` succeeds exactly on the strings that, after the
degree-glyph is stripped, split on comma into two parts that both parse as
floating point after trimming, and fails (raises) on every other string. -/
theorem split_latlng_ok_iff_two_numeric_parts (s : List Char) :
    (split_latlng s).isSome = splitsIntoTwoNumericParts s := by
  unfold split_latlng splitsIntoTwoNumericParts
  rcases h : (pyReplace degreeGlyph [] s).splitOn ',' with _ | ⟨a, _ | ⟨b, _ | ⟨c, rest3⟩⟩⟩
  · rfl
  · rfl
  · cases hpa : isPyFloatLit (pyStrip a) <;> cases hpb : isPyFloatLit (pyStrip b) <;>
      simp [hpa, hpb, List.all_cons]
  · rfl

/-- C10: every segment's `startTime` and `endTime` are read and parsed
unconditionally — also for segments without a `timelinePath` — so one segment
with a missing or malformed header field aborts the whole flattening. -/
theorem segment_header_parse_failure_aborts (segs : List Segment) (seg : Segment)
    (hm : seg ∈ segs) (hb : headerBad seg = true) :
    (flattenSegments segs).isOk = false := by
  induction segs with
  | nil => simp at hm
  | cons s0 rest ih =>
    simp only [flattenSegments]
    rcases List.mem_cons.mp hm with rfl | hm2
    · obtain ⟨e, he⟩ := segmentPoints_error_of_bad seg hb
      rw [he]
      rfl
    · rcases h1 : segmentPoints s0 with e | ps
      · rfl
      · rcases h2 : flattenSegments rest with e | qs
        · rfl
        · have hrest := ih hm2
          rw [h2] at hrest
          simp [Except.isOk, Except.toBool] at hrest

/-- C10 witness: a single segment with both header fields missing (and no
`timelinePath`) aborts the run. -/
theorem segment_header_parse_failure_aborts_witness :
    (flattenSegments [badSeg]).isOk = false :=
  segment_header_parse_failure_aborts [badSeg] badSeg (by decide) (by decide)

end Timeline2GPX
